import Mathlib

/-!
Verification of the Quina results page (src/script.js) against its
specification.  Strings are modelled as lists of characters; JS numbers
appearing here are integers (parseInt output and draw identifiers), modelled
as Int/Nat; fallible operations return Option.
-/

namespace Quina

/-- A JS string, modelled as its list of characters. -/
abbrev Str := List Char

/-- The whitespace characters recognised by String.prototype.trim and by
parseInt (ASCII whitespace plus no-break space). -/
def isJsWhitespace (c : Char) : Bool :=
  c == ' ' || c == '\t' || c == '\n' || c == '\r' ||
  c == Char.ofNat 11 || c == Char.ofNat 12 || c == Char.ofNat 160

/-- JS String.prototype.trim: drop whitespace from both ends. -/
def trim (s : Str) : Str :=
  ((s.dropWhile isJsWhitespace).reverse.dropWhile isJsWhitespace).reverse

/-- Value of a run of decimal digit characters. -/
def digitsVal (ds : Str) : Nat :=
  ds.foldl (fun acc c => acc * 10 + (c.toNat - 48)) 0

/-- The longest run of decimal digits at the front of the string, as a value;
none when the string does not start with a digit. -/
def digitRunVal (s : Str) : Option Nat :=
  if s.takeWhile Char.isDigit = [] then none
  else some (digitsVal (s.takeWhile Char.isDigit))

/-- JS parseInt(s, 10): skip leading whitespace, an optional sign, then the
longest run of decimal digits; NaN (none) when no digit follows. -/
def jsParseInt (s : Str) : Option Int :=
  if (s.dropWhile isJsWhitespace).head? = some ('-') then
    (digitRunVal (s.dropWhile isJsWhitespace).tail).map (fun n => -(n : Int))
  else if (s.dropWhile isJsWhitespace).head? = some ('+') then
    (digitRunVal (s.dropWhile isJsWhitespace).tail).map (fun n => (n : Int))
  else (digitRunVal (s.dropWhile isJsWhitespace)).map (fun n => (n : Int))

/-- JS ToNumber on a string, restricted to optionally signed decimal integer
literals, with the empty or all-whitespace string mapping to 0 — the forms a
draw identifier can take.  Fractional, exponent and hex literal forms are not
modelled. -/
def strToNumber (s : Str) : Option Int :=
  let t := trim s
  if t = [] then some 0
  else if t.head? = some ('-') then
    if t.tail ≠ [] ∧ t.tail.all Char.isDigit then some (-((digitsVal t.tail : Nat) : Int))
    else none
  else if t.head? = some ('+') then
    if t.tail ≠ [] ∧ t.tail.all Char.isDigit then some ((digitsVal t.tail : Int))
    else none
  else if t.all Char.isDigit then some ((digitsVal t : Int))
  else none

/-- A draw identifier as it exists at runtime: the remote parser produces
numbers, while the local JSON may hold numbers or strings; the merge compares
them with JS loose equality. -/
inductive JSId where
  | num (n : Int)
  | str (s : Str)
deriving DecidableEq

/-- JS loose equality (the == operator) on draw identifiers: number against
number compares numerically, string against string as strings, and a mixed
pair coerces the string with ToNumber (a non-numeric string compares unequal
to every number). -/
def jsEqId : JSId → JSId → Bool
  | JSId.num a, JSId.num b => decide (a = b)
  | JSId.str a, JSId.str b => decide (a = b)
  | JSId.num a, JSId.str s =>
    match strToNumber s with
    | some v => decide (a = v)
    | none => false
  | JSId.str s, JSId.num b =>
    match strToNumber s with
    | some v => decide (v = b)
    | none => false

/-- One lottery drawing as built by parseCSV or loaded from the local JSON. -/
structure DrawRecord where
  drawNumber : JSId
  date : Str
  numbers : List Int
deriving DecidableEq

/-- The character loop of parseCSVLine (script.js lines 99-106): current
accumulates the field, a double quote toggles inQuotes without being appended,
and a comma outside quotes closes the current field. -/
def parseCSVLineAux (current : Str) (inQuotes : Bool) : Str → List Str
  | [] => [trim current]
  | ch :: rest =>
    if ch = '"' then parseCSVLineAux current (!inQuotes) rest
    else if ch = ',' ∧ inQuotes = false then
      trim current :: parseCSVLineAux [] inQuotes rest
    else parseCSVLineAux (current ++ [ch]) inQuotes rest

/-- parseCSVLine from script.js (lines 95-109): split one line into trimmed
fields, commas inside quotes being literal content. -/
def parseCSVLine (line : Str) : List Str :=
  parseCSVLineAux [] false line

/-- JS String.prototype.split with a one-character separator. -/
def splitOnChar (sep : Char) : Str → List Str
  | [] => [[]]
  | c :: rest =>
    match splitOnChar sep rest with
    | [] => [[]]
    | f :: fs => if c = sep then [] :: f :: fs else (c :: f) :: fs

/-- JS String.prototype.padStart(2, zero). -/
def padStart2 (s : Str) : Str :=
  if 2 ≤ s.length then s else List.replicate (2 - s.length) ('0') ++ s

/-- The dd/mm/yyyy → yyyy-mm-dd conversion inside parseCSV (lines 78-82).
Destructuring a split with fewer than three parts leaves the year undefined,
which the template literal interpolates as the text undefined; a date string
containing a slash always splits into at least two parts, so day and month are
always present. -/
def convertDate (dateStr : Str) : Str :=
  if dateStr.contains '/' then
    (splitOnChar '/' dateStr).getD 2 (("undefined").toList) ++
      ('-') :: (padStart2 ((splitOnChar '/' dateStr).getD 1 []) ++
        ('-') :: padStart2 ((splitOnChar '/' dateStr).getD 0 []))
  else dateStr

/-- The body of parseCSV's per-line loop (script.js lines 69-89): none when
the line is dropped, some record when it is accepted. -/
def extractRecord (line : Str) : Option DrawRecord :=
  if (parseCSVLine line).length < 7 then none
  else
    match jsParseInt (((parseCSVLine line).getD 0 []).filter Char.isDigit) with
    | none => none
    | some n =>
      if ((((parseCSVLine line).drop 2).take 5).filterMap jsParseInt).length = 5 then
        some ⟨JSId.num n,
              convertDate (trim ((parseCSVLine line).getD 1 [])),
              (((parseCSVLine line).drop 2).take 5).filterMap jsParseInt⟩
      else none

/-- parseCSV from script.js (lines 63-92): split the text into lines, drop
empty lines, skip the header line, and extract a record from each remaining
line, keeping the accepted ones in source order. -/
def parseCSV (csvText : Str) : List DrawRecord :=
  (((splitOnChar '\n' csvText).filter (fun l => !l.isEmpty)).drop 1).filterMap
    extractRecord

/-- One step of the merge loop in fetchResults (lines 39-43): push the remote
record unless some already accumulated record's drawNumber loosely equals
its drawNumber. -/
def mergeStep (acc : List DrawRecord) (sr : DrawRecord) : List DrawRecord :=
  if (acc.find? (fun r => jsEqId r.drawNumber sr.drawNumber)).isSome then acc
  else acc ++ [sr]

/-- The merge in fetchResults (script.js lines 38-43): start from the local
records and fold the remote records through the dedup step. -/
def mergeResults (localResults sheetResults : List DrawRecord) : List DrawRecord :=
  sheetResults.foldl mergeStep localResults

/-- The numeric value of a draw identifier under JS arithmetic coercion
(a string is coerced with ToNumber); none models NaN. -/
def idToNumber : JSId → Option Int
  | JSId.num n => some n
  | JSId.str s => strToNumber s

/-- Sort key of a record: the comparator (a, b) => b.drawNumber - a.drawNumber
orders records by the numeric value of drawNumber.  The default 0 stands in
for NaN and is never reached under the numeric-identifier hypothesis of the
display theorem. -/
def drawKey (r : DrawRecord) : Int :=
  (idToNumber r.drawNumber).getD 0

/-- Stable descending insertion: the new record goes in front of the first
record whose key does not exceed its own, so equal keys keep their original
relative order, as the stable comparator sort does. -/
def insertDesc (r : DrawRecord) : List DrawRecord → List DrawRecord
  | [] => [r]
  | x :: xs => if drawKey x ≤ drawKey r then r :: x :: xs else x :: insertDesc r xs

/-- The sort in displayResults (line 120): a copy of the collection ordered by
drawNumber descending; the original list is untouched (the model is pure, and
the source sorts a spread copy). -/
def sortResultsDesc (results : List DrawRecord) : List DrawRecord :=
  results.foldr insertDesc []

/-- Pure core of displayResults (script.js lines 112-127): an empty collection
yields none (the placeholder branch); otherwise the descending-sorted copy is
split into the latest record (sortedResults[0]) and the previous records
(sortedResults.slice(1)).  DOM rendering and the lastUpdated display are not
modelled. -/
def displayParts (results : List DrawRecord) : Option (DrawRecord × List DrawRecord) :=
  match sortResultsDesc results with
  | [] => none
  | latest :: previous => some (latest, previous)

/-- A calendar date held by a valid JS Date object. -/
structure CalDate where
  year : Nat
  month : Nat
  day : Nat
deriving DecidableEq

/-- Gregorian leap-year rule, as used by the Date parser. -/
def isLeapYear (y : Nat) : Bool :=
  decide ((y % 4 = 0 ∧ y % 100 ≠ 0) ∨ y % 400 = 0)

/-- Days in a month of a given year. -/
def daysInMonth (y m : Nat) : Nat :=
  if m = 2 then (if isLeapYear y then 29 else 28)
  else if m = 4 ∨ m = 6 ∨ m = 9 ∨ m = 11 then 30
  else 31

/-- new Date(string) on the date-only ISO form YYYY-MM-DD; none models an
Invalid Date object — the constructor itself never throws on a string.
Implementation-defined legacy formats beyond the ISO form are not modelled:
the date strings this program feeds in are either ISO or not dates at all. -/
def jsNewDate (s : Str) : Option CalDate :=
  match splitOnChar '-' s with
  | [ys, ms, ds] =>
    if ys.length = 4 ∧ ys.all Char.isDigit ∧ ms.length = 2 ∧ ms.all Char.isDigit ∧
        ds.length = 2 ∧ ds.all Char.isDigit then
      if 1 ≤ digitsVal ms ∧ digitsVal ms ≤ 12 ∧ 1 ≤ digitsVal ds ∧
          digitsVal ds ≤ daysInMonth (digitsVal ys) (digitsVal ms) then
        some ⟨digitsVal ys, digitsVal ms, digitsVal ds⟩
      else none
    else none
  | _ => none

/-- CLDR pt-BR abbreviated month names, as used by toLocaleDateString. -/
def monthAbbrPtBR (m : Nat) : Str :=
  (["jan.", "fev.", "mar.", "abr.", "mai.", "jun.", "jul.", "ago.", "set.",
    "out.", "nov.", "dez."].getD (m - 1) "").toList

/-- Date.prototype.toLocaleDateString for pt-BR with 2-digit day, short month
and numeric year.  An invalid date (none) formats as the text Invalid Date —
the formatter returns that string rather than throwing.  The host timezone is
not modelled: the success path renders the stored calendar date directly. -/
def toLocaleDateStringPtBR (d : Option CalDate) : Str :=
  match d with
  | none => ("Invalid Date").toList
  | some dt =>
    padStart2 ((Nat.repr dt.day).toList) ++ (" de ").toList ++
      monthAbbrPtBR dt.month ++ (" de ").toList ++ (Nat.repr dt.year).toList

/-- formatDate from script.js (lines 184-197).  A falsy dateStr — absent
(none) or empty — returns the placeholder.  Otherwise new Date(dateStr) never
throws (an unparseable string yields an Invalid Date object), so the catch
branch that would return the raw string is unreachable and the try branch's
locale formatting is what comes back. -/
def formatDate (dateStr : Option Str) : Str :=
  match dateStr with
  | none => ("Desconhecida").toList
  | some s =>
    if s = [] then ("Desconhecida").toList
    else toLocaleDateStringPtBR (jsNewDate s)

/-- Spec-side count of separating commas in a line: the commas seen while the
running quote-toggle state is off. -/
def commasOutsideQuotes (inQuotes : Bool) : Str → Nat
  | [] => 0
  | ch :: rest =>
    if ch = '"' then commasOutsideQuotes (!inQuotes) rest
    else if ch = ',' ∧ inQuotes = false then commasOutsideQuotes inQuotes rest + 1
    else commasOutsideQuotes inQuotes rest

/-- A well-formed data line in the sense of the extractor spec: at least seven
fields, a first field containing a digit, and the five fields at positions
2 through 6 all integer-parseable. -/
def wellFormedLine (l : Str) : Bool :=
  decide (7 ≤ (parseCSVLine l).length) &&
  ((parseCSVLine l).getD 0 []).any Char.isDigit &&
  (((parseCSVLine l).drop 2).take 5).all (fun f => (jsParseInt f).isSome)

/-- Join lines with newline separators (the inverse of the line split, for
stating whole-text properties). -/
def joinLines : List Str → Str
  | [] => []
  | [l] => l
  | l :: ls => l ++ ('\n') :: joinLines ls

/-- Spec-side description of the remote records the merge appends, per the
amended C4: walking the remote list in order, a record is kept when its
drawNumber loosely equals the drawNumber of no accumulated record — the local
records together with the remote records already kept. -/
def keepNewRemote (acc : List DrawRecord) : List DrawRecord → List DrawRecord
  | [] => []
  | sr :: rs =>
    if acc.any (fun r => jsEqId r.drawNumber sr.drawNumber) then keepNewRemote acc rs
    else sr :: keepNewRemote (acc ++ [sr]) rs

/-- Local draw-5 record, used by the merge example. -/
def recDraw5Local : DrawRecord := ⟨JSId.num 5, ("2024-01-06").toList, [1, 2, 3, 4, 5]⟩

/-- Remote draw-5 record with different numbers, used by the merge example. -/
def recDraw5Remote : DrawRecord := ⟨JSId.num 5, ("2024-01-06").toList, [6, 7, 8, 9, 10]⟩

/-- A second remote draw-5 record, for the duplicate-remote counterexample. -/
def recDraw5RemoteB : DrawRecord := ⟨JSId.num 5, ("2024-01-06").toList, [16, 17, 18, 19, 20]⟩

/-- Remote draw-6 record, used by the merge example. -/
def recDraw6Remote : DrawRecord := ⟨JSId.num 6, ("2024-01-13").toList, [11, 12, 13, 14, 15]⟩

/-- Draw-1 record for the display-order example. -/
def recDraw1 : DrawRecord := ⟨JSId.num 1, ("2024-02-03").toList, [1, 2, 3, 4, 5]⟩

/-- Draw-2 record for the display-order example. -/
def recDraw2 : DrawRecord := ⟨JSId.num 2, ("2024-02-10").toList, [6, 7, 8, 9, 10]⟩

/-- Draw-3 record for the display-order example. -/
def recDraw3 : DrawRecord := ⟨JSId.num 3, ("2024-02-17").toList, [11, 12, 13, 14, 15]⟩

/-- A concrete header line, as on the spreadsheet. -/
def headerLine : Str := ("Concurso,Data,N1,N2,N3,N4,N5").toList

/-- The spec's example data line. -/
def dataLineA : Str := ("1234,01/02/2023,10,20,30,40,50").toList

/-- A second well-formed data line. -/
def dataLineB : Str := ("1235,03/02/2023,1,2,3,4,5").toList

/-- A data line with only four numeric fields among the five expected
positions. -/
def dataLineBad : Str := ("1234,01/02/2023,10,20,30,40,abc").toList

/-- The record the spec's example line extracts to. -/
def recDraw1234 : DrawRecord :=
  ⟨JSId.num 1234, ("2023-02-01").toList, [10, 20, 30, 40, 50]⟩

/-! ### Helper lemmas about trimming and the line parser -/

theorem mem_of_mem_trim {c : Char} {s : Str} (h : c ∈ trim s) : c ∈ s := by
  unfold trim at h
  rw [List.mem_reverse] at h
  have h2 := (List.dropWhile_sublist _).subset h
  rw [List.mem_reverse] at h2
  exact (List.dropWhile_sublist _).subset h2

theorem parseCSVLineAux_length : ∀ (s current : Str) (inQuotes : Bool),
    (parseCSVLineAux current inQuotes s).length = commasOutsideQuotes inQuotes s + 1 := by
  intro s
  induction s with
  | nil =>
    intro current inQuotes
    simp [parseCSVLineAux, commasOutsideQuotes]
  | cons ch rest ih =>
    intro current inQuotes
    by_cases h1 : ch = '"'
    · simp [parseCSVLineAux, commasOutsideQuotes, h1, ih]
    · by_cases h2 : ch = ',' ∧ inQuotes = false
      · simp [parseCSVLineAux, commasOutsideQuotes, h1, h2, ih]
      · simp [parseCSVLineAux, commasOutsideQuotes, h1, h2, ih]

theorem parseCSVLineAux_no_quote : ∀ (s current : Str) (inQuotes : Bool),
    ('"') ∉ current → ∀ f ∈ parseCSVLineAux current inQuotes s, ('"') ∉ f := by
  intro s
  induction s with
  | nil =>
    intro current inQuotes hcur f hf
    simp only [parseCSVLineAux, List.mem_singleton] at hf
    subst hf
    exact fun hq => hcur (mem_of_mem_trim hq)
  | cons ch rest ih =>
    intro current inQuotes hcur f hf
    by_cases h1 : ch = '"'
    · rw [parseCSVLineAux, if_pos h1] at hf
      exact ih current (!inQuotes) hcur f hf
    · by_cases h2 : ch = ',' ∧ inQuotes = false
      · rw [parseCSVLineAux, if_neg h1, if_pos h2] at hf
        rcases List.mem_cons.mp hf with hf | hf
        · subst hf
          exact fun hq => hcur (mem_of_mem_trim hq)
        · exact ih [] inQuotes (List.not_mem_nil _) f hf
      · rw [parseCSVLineAux, if_neg h1, if_neg h2] at hf
        refine ih (current ++ [ch]) inQuotes ?_ f hf
        intro hq
        rcases List.mem_append.mp hq with hq | hq
        · exact hcur hq
        · exact h1 (List.mem_singleton.mp hq).symm

/-! ### Claim theorems for the row parser -/

/-- C9: for every input line, parseCSVLine returns one field more than the
number of commas occurring outside quoted mode (each double quote toggling the
mode, commas inside the mode being literal content), and an unterminated quote
at end of line is tolerated: the final accumulated field is still emitted, as
the concrete unterminated-quote line shows. -/
theorem parseCSVLine_field_count :
    (∀ line : Str, (parseCSVLine line).length = commasOutsideQuotes false line + 1) ∧
    parseCSVLine (("\"a,b").toList) = [("a,b").toList] :=
  ⟨fun line => parseCSVLineAux_length line [] false, by decide⟩

/-- C10: parseCSVLine removes every double-quote character from field content:
no output field contains a double quote, since quotes only toggle the mode and
are never appended to the current field. -/
theorem parseCSVLine_no_quote (line f : Str) (hf : f ∈ parseCSVLine line) :
    ('"') ∉ f :=
  parseCSVLineAux_no_quote line [] false (List.not_mem_nil _) f hf

/-- Witness for C10 at the quoted field from the claim: the line consisting of
the quoted text a,b yields that single field without its surrounding quotes. -/
theorem parseCSVLine_no_quote_witness :
    (("a,b").toList ∈ parseCSVLine (("\"a,b\"").toList) ∧
      ('"') ∉ ("a,b").toList) ∧
    parseCSVLine (("\"a,b\"").toList) = [("a,b").toList] :=
  ⟨⟨by decide, parseCSVLine_no_quote (("\"a,b\"").toList) (("a,b").toList) (by decide)⟩,
    by decide⟩

/-! ### Helper lemmas about the merge -/

theorem find?_isSome_iff_any (p : DrawRecord → Bool) (l : List DrawRecord) :
    (l.find? p).isSome = l.any p := by
  induction l with
  | nil => rfl
  | cons a as ih =>
    rw [List.find?_cons, List.any_cons]
    by_cases h : p a = true
    · simp [h]
    · simp only [Bool.not_eq_true] at h
      simp [h, ih]

theorem jsEqId_refl (i : JSId) : jsEqId i i = true := by
  cases i <;> simp [jsEqId]

theorem mem_foldl_mergeStep {x : DrawRecord} :
    ∀ (rs acc : List DrawRecord), x ∈ acc → x ∈ rs.foldl mergeStep acc := by
  intro rs
  induction rs with
  | nil =>
    intro acc h
    simpa using h
  | cons sr rs ih =>
    intro acc h
    rw [List.foldl_cons]
    refine ih _ ?_
    unfold mergeStep
    split
    · exact h
    · exact List.mem_append_left _ h

theorem exists_match_foldl_mergeStep :
    ∀ (rs acc : List DrawRecord) (sr : DrawRecord), sr ∈ rs →
      ∃ x ∈ rs.foldl mergeStep acc, jsEqId x.drawNumber sr.drawNumber = true := by
  intro rs
  induction rs with
  | nil =>
    intro acc sr h
    cases h
  | cons a rs ih =>
    intro acc sr h
    rw [List.foldl_cons]
    rcases List.mem_cons.mp h with h | h
    · subst h
      by_cases hc : (acc.find? (fun r => jsEqId r.drawNumber sr.drawNumber)).isSome = true
      · obtain ⟨x, hfind⟩ := Option.isSome_iff_exists.mp hc
        have hx1 : x ∈ acc := List.mem_of_find?_eq_some hfind
        have hx2 := List.find?_some hfind
        have hstep : mergeStep acc sr = acc := by rw [mergeStep, if_pos hc]
        exact ⟨x, mem_foldl_mergeStep rs _ (by rw [hstep]; exact hx1), hx2⟩
      · have hstep : mergeStep acc sr = acc ++ [sr] := by rw [mergeStep, if_neg hc]
        refine ⟨sr, mem_foldl_mergeStep rs _ ?_, jsEqId_refl _⟩
        rw [hstep]
        exact List.mem_append_right _ (List.mem_singleton.mpr rfl)
    · exact ih (mergeStep acc a) sr h

theorem foldl_mergeStep_stable :
    ∀ (rs acc : List DrawRecord),
      (∀ sr ∈ rs, ∃ x ∈ acc, jsEqId x.drawNumber sr.drawNumber = true) →
      rs.foldl mergeStep acc = acc := by
  intro rs
  induction rs with
  | nil =>
    intro acc _
    rfl
  | cons a rs ih =>
    intro acc h
    have hfind : (acc.find? (fun r => jsEqId r.drawNumber a.drawNumber)).isSome = true := by
      rw [find?_isSome_iff_any, List.any_eq_true]
      obtain ⟨x, hx, he⟩ := h a (List.mem_cons_self a rs)
      exact ⟨x, hx, he⟩
    have hstep : mergeStep acc a = acc := by rw [mergeStep, if_pos hfind]
    rw [List.foldl_cons, hstep]
    exact ih acc (fun sr hsr => h sr (List.mem_cons_of_mem _ hsr))

theorem foldl_mergeStep_eq_keepNewRemote :
    ∀ (rs acc : List DrawRecord), rs.foldl mergeStep acc = acc ++ keepNewRemote acc rs := by
  intro rs
  induction rs with
  | nil =>
    intro acc
    simp [keepNewRemote]
  | cons sr rs ih =>
    intro acc
    rw [List.foldl_cons, keepNewRemote]
    by_cases h : acc.any (fun r => jsEqId r.drawNumber sr.drawNumber) = true
    · have hstep : mergeStep acc sr = acc := by
        rw [mergeStep, if_pos (by rw [find?_isSome_iff_any]; exact h)]
      rw [if_pos h, hstep, ih]
    · have hstep : mergeStep acc sr = acc ++ [sr] := by
        rw [mergeStep, if_neg (by rw [find?_isSome_iff_any]; exact h)]
      rw [if_neg h, hstep, ih (acc ++ [sr])]
      simp

/-! ### Claim theorems for the merge -/

/-- C4 as stated is false: with no local records and a remote list repeating
draw 5 with different numbers, the merge keeps only the first copy, while the
claim predicts every remote record whose drawNumber matches no local record —
here both. -/
theorem mergeResults_remote_duplicate_counterexample :
    mergeResults [] [recDraw5Remote, recDraw5RemoteB] ≠
      ([] : List DrawRecord) ++
        ([recDraw5Remote, recDraw5RemoteB].filter
          (fun sr => !(([] : List DrawRecord).any
            (fun r => jsEqId r.drawNumber sr.drawNumber)))) := by
  decide

/-- C4 amended: the merge returns the local records in their original order
followed by, in remote order, each remote record whose drawNumber is loosely
equal to the drawNumber of no record already accumulated — the local records
together with the remote records already appended (not merely the local
records, as the duplicate-remote counterexample forces).  On the claim's
example the draw-5 entry stays the local version and the remote draw-6 entry
is appended at the end. -/
theorem mergeResults_eq_append_keepNewRemote :
    (∀ (localResults sheetResults : List DrawRecord),
      mergeResults localResults sheetResults =
        localResults ++ keepNewRemote localResults sheetResults) ∧
    mergeResults [recDraw5Local] [recDraw5Remote, recDraw6Remote] =
      [recDraw5Local, recDraw6Remote] :=
  ⟨fun l r => foldl_mergeStep_eq_keepNewRemote r l, by decide⟩

/-- C5: the merge is idempotent in the remote argument: merging the same
remote set into an already-merged result appends nothing, so the record count
does not grow on the second pass. -/
theorem mergeResults_idempotent (localResults sheetResults : List DrawRecord) :
    mergeResults (mergeResults localResults sheetResults) sheetResults =
      mergeResults localResults sheetResults := by
  unfold mergeResults
  exact foldl_mergeStep_stable sheetResults _
    (fun sr hsr => exists_match_foldl_mergeStep sheetResults localResults sr hsr)

/-! ### Helper lemmas about the display sort -/

theorem insertDesc_perm (r : DrawRecord) :
    ∀ l : List DrawRecord, List.Perm (insertDesc r l) (r :: l) := by
  intro l
  induction l with
  | nil => exact List.Perm.refl _
  | cons x xs ih =>
    rw [insertDesc]
    split
    · exact List.Perm.refl _
    · exact (List.Perm.cons x ih).trans (List.Perm.swap r x xs)

theorem insertDesc_sorted (r : DrawRecord) :
    ∀ l : List DrawRecord,
      l.Pairwise (fun a b => drawKey b ≤ drawKey a) →
      (insertDesc r l).Pairwise (fun a b => drawKey b ≤ drawKey a) := by
  intro l
  induction l with
  | nil =>
    intro _
    simp [insertDesc]
  | cons x xs ih =>
    intro h
    have hx := List.pairwise_cons.mp h
    rw [insertDesc]
    by_cases hc : drawKey x ≤ drawKey r
    · rw [if_pos hc]
      refine List.Pairwise.cons ?_ h
      intro b hb
      rcases List.mem_cons.mp hb with hb | hb
      · rw [hb]
        exact hc
      · exact le_trans (hx.1 b hb) hc
    · rw [if_neg hc]
      refine List.Pairwise.cons ?_ (ih hx.2)
      intro b hb
      have hb2 : b ∈ r :: xs := (insertDesc_perm r xs).subset hb
      rcases List.mem_cons.mp hb2 with hb2 | hb2
      · rw [hb2]
        exact le_of_lt (lt_of_not_le hc)
      · exact hx.1 b hb2

theorem sortResultsDesc_perm (results : List DrawRecord) :
    List.Perm (sortResultsDesc results) results := by
  induction results with
  | nil => exact List.Perm.refl _
  | cons r rs ih =>
    exact (insertDesc_perm r (List.foldr insertDesc [] rs)).trans (List.Perm.cons r ih)

theorem sortResultsDesc_sorted (results : List DrawRecord) :
    (sortResultsDesc results).Pairwise (fun a b => drawKey b ≤ drawKey a) := by
  induction results with
  | nil => simp [sortResultsDesc]
  | cons r rs ih =>
    exact insertDesc_sorted r (List.foldr insertDesc [] rs) ih

/-! ### Claim theorem for the renderer's ordering -/

/-- C6: for every non-empty collection of records (with numeric draw
identifiers, the domain on which the subtraction comparator is modelled), the
renderer's sorted copy is a permutation of the input ordered by drawNumber
descending; its first record is designated the latest result and the
remaining records the previous results.  The input collection itself is
untouched: the source sorts a spread copy and the model is pure. -/
theorem displayParts_spec (results : List DrawRecord)
    (hne : results ≠ [])
    (_hnum : ∀ r ∈ results, (idToNumber r.drawNumber).isSome = true) :
    ∃ latest previous,
      displayParts results = some (latest, previous) ∧
      sortResultsDesc results = latest :: previous ∧
      (latest :: previous).Pairwise (fun a b => drawKey b ≤ drawKey a) ∧
      List.Perm (latest :: previous) results ∧
      ∀ r ∈ results, drawKey r ≤ drawKey latest := by
  have hperm := sortResultsDesc_perm results
  have hsorted := sortResultsDesc_sorted results
  match hs : sortResultsDesc results with
  | [] =>
    rw [hs] at hperm
    exact absurd (List.Perm.nil_eq hperm).symm hne
  | latest :: previous =>
    rw [hs] at hperm hsorted
    refine ⟨latest, previous, ?_, rfl, hsorted, hperm, ?_⟩
    · unfold displayParts
      rw [hs]
    · intro r hr
      have hr2 : r ∈ latest :: previous := hperm.symm.subset hr
      rcases List.mem_cons.mp hr2 with h | h
      · rw [h]
      · exact (List.pairwise_cons.mp hsorted).1 r h

/-- Witness for C6 on the claim's example: draw numbers [3, 1, 2] display in
order [3, 2, 1], with draw 3 as the latest result and [2, 1] as the previous
results. -/
theorem displayParts_spec_witness :
    (∃ latest previous,
      displayParts [recDraw3, recDraw1, recDraw2] = some (latest, previous) ∧
      sortResultsDesc [recDraw3, recDraw1, recDraw2] = latest :: previous ∧
      (latest :: previous).Pairwise (fun a b => drawKey b ≤ drawKey a) ∧
      List.Perm (latest :: previous) [recDraw3, recDraw1, recDraw2] ∧
      ∀ r ∈ [recDraw3, recDraw1, recDraw2], drawKey r ≤ drawKey latest) ∧
    displayParts [recDraw3, recDraw1, recDraw2] = some (recDraw3, [recDraw2, recDraw1]) :=
  ⟨displayParts_spec [recDraw3, recDraw1, recDraw2] (by decide) (by decide), by decide⟩

/-! ### Claim theorems for date display -/

/-- C7 names intended behaviour the code does not have: on a non-empty date
string that fails to parse, formatDate returns the text Invalid Date, not the
raw input.  The constructor new Date(string) never throws — it yields an
Invalid Date object — so the catch branch that would return the raw string is
dead code, and the locale formatter renders the invalid date as Invalid Date.
This theorem evaluates the code's actual behaviour at such an input. -/
theorem formatDate_unparseable_eval :
    formatDate (some (("not-a-date").toList)) = ("Invalid Date").toList ∧
    formatDate (some (("not-a-date").toList)) ≠ ("not-a-date").toList := by
  decide

/-- C8: an absent or empty date string renders as the explicit placeholder
Desconhecida — never the empty string and never Invalid Date. -/
theorem formatDate_empty_placeholder :
    formatDate none = ("Desconhecida").toList ∧
    formatDate (some []) = ("Desconhecida").toList ∧
    formatDate (some []) ≠ [] ∧
    formatDate (some []) ≠ ("Invalid Date").toList := by
  decide

/-! ### Helper lemmas about splitting, digits and extraction -/

theorem splitOnChar_ne_nil (sep : Char) : ∀ s : Str, splitOnChar sep s ≠ [] := by
  intro s
  cases s with
  | nil => simp [splitOnChar]
  | cons c rest =>
    rw [splitOnChar]
    cases h : splitOnChar sep rest with
    | nil => simp
    | cons f fs =>
      by_cases hc : c = sep <;> simp [hc]

theorem splitOnChar_no_sep (sep : Char) :
    ∀ l : Str, sep ∉ l → splitOnChar sep l = [l] := by
  intro l
  induction l with
  | nil => intro _; rfl
  | cons c rest ih =>
    intro h
    have hc : c ≠ sep := fun he => h (he ▸ List.mem_cons_self c rest)
    have hrest : sep ∉ rest := fun hm => h (List.mem_cons_of_mem _ hm)
    rw [splitOnChar, ih hrest]
    simp [hc]

theorem splitOnChar_append_cons (sep : Char) :
    ∀ (a b : Str), sep ∉ a →
      splitOnChar sep (a ++ sep :: b) = a :: splitOnChar sep b := by
  intro a
  induction a with
  | nil =>
    intro b _
    rw [List.nil_append, splitOnChar]
    cases hsb : splitOnChar sep b with
    | nil => exact absurd hsb (splitOnChar_ne_nil sep b)
    | cons f fs => simp
  | cons c a ih =>
    intro b h
    have hc : c ≠ sep := fun he => h (he ▸ List.mem_cons_self c a)
    have ha : sep ∉ a := fun hm => h (List.mem_cons_of_mem _ hm)
    rw [List.cons_append, splitOnChar, ih b ha]
    simp [hc]

theorem splitOnChar_joinLines :
    ∀ ls : List Str, ls ≠ [] → (∀ l ∈ ls, ('\n') ∉ l) →
      splitOnChar '\n' (joinLines ls) = ls := by
  intro ls
  induction ls with
  | nil =>
    intro h _
    exact absurd rfl h
  | cons l ls ih =>
    intro _ h
    cases ls with
    | nil => exact splitOnChar_no_sep _ l (h l (List.mem_cons_self _ _))
    | cons l2 ls2 =>
      show splitOnChar '\n' (l ++ ('\n') :: joinLines (l2 :: ls2)) = l :: l2 :: ls2
      rw [splitOnChar_append_cons _ _ _ (h l (List.mem_cons_self _ _)),
        ih (by simp) (fun x hx => h x (List.mem_cons_of_mem _ hx))]

theorem digit_not_ws {c : Char} (h : c.isDigit = true) : isJsWhitespace c = false := by
  by_contra hne
  rw [Bool.not_eq_false, isJsWhitespace] at hne
  simp only [Bool.or_eq_true, beq_iff_eq] at hne
  rcases hne with ((((((h1 | h1) | h1) | h1) | h1) | h1) | h1) <;> subst h1 <;>
    exact absurd h (by decide)

theorem takeWhile_eq_self_of_all (p : Char → Bool) :
    ∀ l : Str, l.all p = true → l.takeWhile p = l := by
  intro l
  induction l with
  | nil => intro _; rfl
  | cons a as ih =>
    intro h
    rw [List.all_cons, Bool.and_eq_true] at h
    simp [List.takeWhile_cons, h.1, ih h.2]

theorem jsParseInt_all_digits (ds : Str) (hne : ds ≠ [])
    (hall : ds.all Char.isDigit = true) :
    jsParseInt ds = some ((digitsVal ds : Int)) := by
  match ds, hne with
  | c :: rest, _ =>
    rw [List.all_cons, Bool.and_eq_true] at hall
    obtain ⟨hc, hrest⟩ := hall
    have hcm : c ≠ '-' := by
      intro he
      rw [he] at hc
      exact absurd hc (by decide)
    have hcp : c ≠ '+' := by
      intro he
      rw [he] at hc
      exact absurd hc (by decide)
    have hdrop : (c :: rest).dropWhile isJsWhitespace = c :: rest := by
      rw [List.dropWhile_cons, digit_not_ws hc]
      simp
    have htake : (c :: rest).takeWhile Char.isDigit = c :: rest :=
      takeWhile_eq_self_of_all _ _ (by rw [List.all_cons, Bool.and_eq_true]; exact ⟨hc, hrest⟩)
    rw [jsParseInt, hdrop, List.head?_cons,
      if_neg (by simp [hcm]), if_neg (by simp [hcp]), digitRunVal, htake,
      if_neg (by simp)]
    rfl

theorem filterMap_length_of_all_isSome {α β : Type} (f : α → Option β) :
    ∀ l : List α, (∀ x ∈ l, (f x).isSome = true) → (l.filterMap f).length = l.length := by
  intro l
  induction l with
  | nil => intro _; rfl
  | cons a as ih =>
    intro h
    obtain ⟨b, hb⟩ := Option.isSome_iff_exists.mp (h a (List.mem_cons_self a as))
    rw [List.filterMap_cons, hb]
    simp [ih (fun x hx => h x (List.mem_cons_of_mem _ hx))]

theorem wellFormedLine_ne_nil (l : Str) (h : wellFormedLine l = true) : l ≠ [] := by
  intro he
  subst he
  exact absurd h (by decide)

theorem bnot_isEmpty_of_ne_nil {l : Str} (h : l ≠ []) : (!l.isEmpty) = true := by
  cases l with
  | nil => exact absurd rfl h
  | cons a as => rfl

theorem extractRecord_of_wellFormed (l : Str) (hwf : wellFormedLine l = true) :
    ∃ r, extractRecord l = some r ∧ r.numbers.length = 5 := by
  rw [wellFormedLine, Bool.and_eq_true, Bool.and_eq_true] at hwf
  obtain ⟨⟨h7, hdig⟩, hall⟩ := hwf
  rw [decide_eq_true_eq] at h7
  rw [List.any_eq_true] at hdig
  rw [List.all_eq_true] at hall
  obtain ⟨c, hc, hcd⟩ := hdig
  have hF1 : c ∈ ((parseCSVLine l).getD 0 []).filter Char.isDigit :=
    List.mem_filter.mpr ⟨hc, hcd⟩
  have hFne : ((parseCSVLine l).getD 0 []).filter Char.isDigit ≠ [] :=
    List.ne_nil_of_mem hF1
  have hFdig : (((parseCSVLine l).getD 0 []).filter Char.isDigit).all Char.isDigit = true := by
    rw [List.all_eq_true]
    intro x hx
    exact (List.mem_filter.mp hx).2
  have hparse := jsParseInt_all_digits _ hFne hFdig
  have hlen5 : (((parseCSVLine l).drop 2).take 5).length = 5 := by
    rw [List.length_take, List.length_drop]
    omega
  have hnums : ((((parseCSVLine l).drop 2).take 5).filterMap jsParseInt).length = 5 := by
    rw [filterMap_length_of_all_isSome _ _ (fun x hx => hall x hx), hlen5]
  refine ⟨⟨JSId.num (digitsVal (((parseCSVLine l).getD 0 []).filter Char.isDigit)),
    convertDate (trim ((parseCSVLine l).getD 1 [])),
    (((parseCSVLine l).drop 2).take 5).filterMap jsParseInt⟩, ?_, hnums⟩
  rw [extractRecord, if_neg (by omega), hparse]
  simp [hnums]

theorem parseCSV_structure (header : Str) (dataLines : List Str)
    (h1 : header ≠ []) (h2 : ('\n') ∉ header)
    (h3 : ∀ l ∈ dataLines, ('\n') ∉ l ∧ wellFormedLine l = true) :
    parseCSV (header ++ ('\n') :: joinLines dataLines) =
      dataLines.filterMap extractRecord := by
  rw [parseCSV, splitOnChar_append_cons _ _ _ h2]
  cases dataLines with
  | nil =>
    match header, h1 with
    | c :: cs, _ => rfl
  | cons dl dls =>
    rw [splitOnChar_joinLines (dl :: dls) (by simp) (fun x hx => (h3 x hx).1)]
    have hfil : (header :: dl :: dls).filter (fun l => !l.isEmpty) = header :: dl :: dls := by
      rw [List.filter_eq_self]
      intro a ha
      rcases List.mem_cons.mp ha with ha | ha
      · rw [ha]
        exact bnot_isEmpty_of_ne_nil h1
      · exact bnot_isEmpty_of_ne_nil (wellFormedLine_ne_nil a ((h3 a ha).2))
    rw [hfil]
    rfl

/-! ### Claim theorems for the record extractor -/

/-- C1: the CSV data line 1234,01/02/2023,10,20,30,40,50 preceded by any
header line extracts to exactly the record with drawNumber 1234, the
slash-containing date reinterpreted as day/month/year and reassembled
zero-padded as 2023-02-01, and numbers [10, 20, 30, 40, 50]. -/
theorem parseCSV_example (header : Str) (h1 : header ≠ []) (h2 : ('\n') ∉ header) :
    parseCSV (header ++ ('\n') :: dataLineA) = [recDraw1234] := by
  have hs := parseCSV_structure header [dataLineA] h1 h2 (by decide)
  rw [show joinLines [dataLineA] = dataLineA from rfl] at hs
  rw [hs]
  decide

/-- Witness for C1 with a concrete header line. -/
theorem parseCSV_example_witness :
    (headerLine ≠ [] ∧ ('\n') ∉ headerLine) ∧
    parseCSV (headerLine ++ ('\n') :: dataLineA) = [recDraw1234] :=
  ⟨⟨by decide, by decide⟩, parseCSV_example headerLine (by decide) (by decide)⟩

/-- C2: for every CSV text of one header line followed by N well-formed data
lines — at least 7 fields, a draw-number field containing digits, five
integer-parseable number fields — the extractor produces exactly N records,
each with exactly 5 numbers, appended in source line order (the output is the
per-line extraction of the data lines, in order). -/
theorem parseCSV_wellFormed (header : Str) (dataLines : List Str)
    (h1 : header ≠ []) (h2 : ('\n') ∉ header)
    (h3 : ∀ l ∈ dataLines, ('\n') ∉ l ∧ wellFormedLine l = true) :
    parseCSV (header ++ ('\n') :: joinLines dataLines) =
      dataLines.filterMap extractRecord ∧
    (parseCSV (header ++ ('\n') :: joinLines dataLines)).length = dataLines.length ∧
    ∀ r ∈ parseCSV (header ++ ('\n') :: joinLines dataLines), r.numbers.length = 5 := by
  have hs := parseCSV_structure header dataLines h1 h2 h3
  have hsome : ∀ l ∈ dataLines, (extractRecord l).isSome = true := by
    intro l hl
    obtain ⟨r, hr, _⟩ := extractRecord_of_wellFormed l ((h3 l hl).2)
    rw [hr]
    rfl
  refine ⟨hs, ?_, ?_⟩
  · rw [hs]
    exact filterMap_length_of_all_isSome _ _ hsome
  · intro r hr
    rw [hs] at hr
    obtain ⟨a, ha, hae⟩ := List.mem_filterMap.mp hr
    obtain ⟨r2, hr2, h5⟩ := extractRecord_of_wellFormed a ((h3 a ha).2)
    rw [hr2] at hae
    rw [← Option.some.inj hae]
    exact h5

/-- Witness for C2 with a concrete header and two well-formed data lines. -/
theorem parseCSV_wellFormed_witness :
    parseCSV (headerLine ++ ('\n') :: joinLines [dataLineA, dataLineB]) =
      [dataLineA, dataLineB].filterMap extractRecord ∧
    (parseCSV (headerLine ++ ('\n') :: joinLines [dataLineA, dataLineB])).length =
      [dataLineA, dataLineB].length ∧
    ∀ r ∈ parseCSV (headerLine ++ ('\n') :: joinLines [dataLineA, dataLineB]),
      r.numbers.length = 5 :=
  parseCSV_wellFormed headerLine [dataLineA, dataLineB] (by decide) (by decide) (by decide)

/-- C3: the extractor rejects a line, producing no record, whenever the parsed
row has fewer than 7 fields, or the first field contains no digit, or fewer
than exactly 5 of the fields at positions 2 through 6 parse as integers. -/
theorem extractRecord_rejects (line : Str)
    (h : (parseCSVLine line).length < 7 ∨
      (∀ c ∈ (parseCSVLine line).getD 0 [], c.isDigit = false) ∨
      ((((parseCSVLine line).drop 2).take 5).filterMap jsParseInt).length < 5) :
    extractRecord line = none := by
  rw [extractRecord]
  by_cases h7 : (parseCSVLine line).length < 7
  · rw [if_pos h7]
  · rw [if_neg h7]
    rcases h with h | h | h
    · exact absurd h h7
    · have hfil : ((parseCSVLine line).getD 0 []).filter Char.isDigit = [] := by
        rw [List.filter_eq_nil_iff]
        intro a ha
        rw [h a ha]
        simp
      rw [hfil]
      rfl
    · cases hp : jsParseInt (((parseCSVLine line).getD 0 []).filter Char.isDigit) with
      | none => rfl
      | some n =>
        have hne5 :
            ¬((((parseCSVLine line).drop 2).take 5).filterMap jsParseInt).length = 5 := by
          omega
        simp [hne5]

/-- Witness for C3 on the claim's example: a line with only four numeric
fields among the five expected positions yields no record. -/
theorem extractRecord_rejects_witness :
    (((((parseCSVLine dataLineBad).drop 2).take 5).filterMap jsParseInt).length < 5) ∧
    extractRecord dataLineBad = none :=
  ⟨by decide, extractRecord_rejects dataLineBad (Or.inr (Or.inr (by decide)))⟩

end Quina
